import Mathlib

/-!
Verification of the trace-event metrics engine of the
Quantum-Networking-Simulation repository (src/network_analyzer.py).

The Python source is embedded shallowly:
  - a trace file is a list of its lines (strings);
  - Python floats are modelled as exact rationals, machine ints as Int;
  - Python dicts are modelled either as association lists in insertion
    order (when key order matters downstream) or as finitely supported
    functions (when only lookup matters);
  - code that can raise an exception is modelled with Option, with none
    for the raising run.

Definitions named after the Python functions (parse_trace_file,
calculate_throughput, calculate_packet_loss, calculate_end_to_end_delay,
analyze_node_activity, analyze_queueing_delay, analyze_protocol_overhead)
are direct translations of the source.  Definitions with Spec in the name
are reference formulations written after the specification text, used to
compare the code against the spec's claims.
-/

/-- Value of a list of decimal digit characters, most significant first. -/
def digitsToNat (cs : List Char) : Nat :=
  cs.foldl (fun a c => a * 10 + (c.toNat - 48)) 0

/-- Parse a nonempty all-digit character list. -/
def parseDigits (cs : List Char) : Option Nat :=
  if cs ≠ [] ∧ cs.all Char.isDigit then some (digitsToNat cs) else none

/-- Model of Python int(token) on a whitespace-free token: an optional
sign followed by one or more decimal digits (underscored and non-decimal
forms are not modelled). -/
def pyInt (s : String) : Option Int :=
  match s.data with
  | '-' :: rest => (parseDigits rest).map (fun n => -(n : Int))
  | '+' :: rest => (parseDigits rest).map (fun n => (n : Int))
  | cs => (parseDigits cs).map (fun n => (n : Int))

/-- Unsigned decimal float body: digits with at most one decimal point,
at least one digit overall. -/
def parseUnsignedFloat (cs : List Char) : Option Rat :=
  match cs.splitOn '.' with
  | [i] => (parseDigits i).map (fun n => (n : Rat))
  | [i, f] =>
    if (i ≠ [] ∨ f ≠ []) ∧ i.all Char.isDigit ∧ f.all Char.isDigit then
      some ((digitsToNat i : Rat) + (digitsToNat f : Rat) / (10 : Rat) ^ f.length)
    else none
  | _ => none

/-- Model of Python float(token) on a whitespace-free token: optional sign,
decimal digits, optional single decimal point (exponents, inf and nan are
not modelled; no trace field uses them). -/
def pyFloat (s : String) : Option Rat :=
  match s.data with
  | '-' :: rest => (parseUnsignedFloat rest).map (fun q => -q)
  | '+' :: rest => parseUnsignedFloat rest
  | cs => parseUnsignedFloat cs

/-- Auxiliary splitter: cur is the current (reversed) in-progress token. -/
def splitWS : List Char → List Char → List String → List String
  | [], cur, acc =>
    if cur = [] then acc.reverse else (String.mk cur.reverse :: acc).reverse
  | c :: rest, cur, acc =>
    if c.isWhitespace then
      if cur = [] then splitWS rest [] acc
      else splitWS rest [] (String.mk cur.reverse :: acc)
    else splitWS rest (c :: cur) acc

/-- Model of Python line.strip().split(): split on runs of whitespace,
discarding empty tokens (so leading and trailing whitespace is ignored
and the strip() is redundant, as in the source). -/
def pySplit (line : String) : List String :=
  splitWS line.data [] []

/-- Model of Python line.startswith on the comment marker of the source. -/
def isCommentLine (line : String) : Bool :=
  match line.data with
  | '#' :: _ => true
  | _ => false

/-- Model of Python int(q) for a float q: truncation toward zero. -/
def pyTrunc (q : Rat) : Int :=
  if 0 ≤ q then ⌊q⌋ else ⌈q⌉

/-- One parsed trace record, with the fields built by parse_trace_file
(src/network_analyzer.py lines 33-46). -/
structure Event where
  event_type : String
  time : Rat
  from_node : Int
  to_node : Int
  packet_type : String
  packet_size : Int
  flags : String
  flow_id : Int
  src_addr : String
  dst_addr : String
  seq_num : Int
  packet_id : Int
deriving DecidableEq, Repr

/-- Outcome of one iteration of the parsing loop: the line is skipped, it
yields an event, or a field conversion raises (ValueError), which the
try/except of the source turns into abandoning the whole file. -/
inductive LineResult
  | skip
  | ev (e : Event)
  | err
deriving DecidableEq, Repr

/-- One iteration of the loop of parse_trace_file (lines 25-47): comment
lines and lines with fewer than 12 fields are skipped; otherwise the
numeric fields are converted, and a conversion failure raises. -/
def parseLine (line : String) : LineResult :=
  if isCommentLine line then .skip
  else
    let parts := pySplit line
    if parts.length < 12 then .skip
    else
      match pyFloat (parts.getD 1 ""), pyInt (parts.getD 2 ""), pyInt (parts.getD 3 ""),
            pyInt (parts.getD 5 ""), pyInt (parts.getD 7 ""), pyInt (parts.getD 10 ""),
            pyInt (parts.getD 11 "") with
      | some t, some fn, some tn, some sz, some fid, some sq, some pid =>
        .ev { event_type := parts.getD 0 "", time := t, from_node := fn, to_node := tn,
              packet_type := parts.getD 4 "", packet_size := sz, flags := parts.getD 6 "",
              flow_id := fid, src_addr := parts.getD 8 "", dst_addr := parts.getD 9 "",
              seq_num := sq, packet_id := pid }
      | _, _, _, _, _, _, _ => .err

/-- Loop of parse_trace_file: events accumulate in order; a raising line
aborts via the try/except of lines 23-50, which returns the empty list. -/
def parseTraceAux : List String → List Event → List Event
  | [], acc => acc.reverse
  | l :: ls, acc =>
    match parseLine l with
    | .skip => parseTraceAux ls acc
    | .ev e => parseTraceAux ls (e :: acc)
    | .err => []

/-- Translation of parse_trace_file (lines 19-52), taking the file as its
list of lines.  A field-conversion failure anywhere makes the whole call
return the empty event list (the except branch). -/
def parse_trace_file (lines : List String) : List Event :=
  parseTraceAux lines []

/-- Association-list lookup (Python dict lookup, insertion-order model). -/
def alookup {α β : Type} [DecidableEq α] : List (α × β) → α → Option β
  | [], _ => none
  | (k', v) :: rest, k => if k' = k then some v else alookup rest k

/-- Model of the defaultdict(int) throughput_data: add v at key k,
creating the key at the end of the dict on first use. -/
def addTo : List (Rat × Int) → Rat → Int → List (Rat × Int)
  | [], k, v => [(k, v)]
  | (k', v') :: rest, k, v =>
    if k' = k then (k', v' + v) :: rest else (k', v') :: addTo rest k v

/-- Length of np.arange(0, stop, step) for nonzero step. -/
def arangeLen (stop step : Rat) : Nat :=
  (⌈stop / step⌉).toNat

/-- Element intervals[idx] of np.arange(0, stop, step) of length n, with
Python negative indexing; none models an IndexError. -/
def arangeGet (n : Nat) (step : Rat) (idx : Int) : Option Rat :=
  if 0 ≤ idx then
    if idx < (n : Int) then some (idx * step) else none
  else
    if 0 ≤ (n : Int) + idx then some (((n : Int) + idx) * step) else none

/-- Python max(event.time for event in events) on a nonempty generator,
as a left fold started at the first element. -/
def maxTimeFrom (a : Rat) (events : List Event) : Rat :=
  events.foldl (fun m e => max m e.time) a

/-- Accumulation loop of calculate_throughput (lines 62-66): each receive
event adds its packet_size at key intervals[int(time / interval)], and an
out-of-range negative index raises (none). -/
def throughputFold (interval : Rat) (n : Nat) :
    List Event → List (Rat × Int) → Option (List (Rat × Int))
  | [], d => some d
  | e :: rest, d =>
    if e.event_type = "r" then
      let idx := pyTrunc (e.time / interval)
      if idx < (n : Int) then
        match arangeGet n interval idx with
        | some key => throughputFold interval n rest (addTo d key e.packet_size)
        | none => none
      else throughputFold interval n rest d
    else throughputFold interval n rest d

/-- Translation of calculate_throughput (lines 54-72).  The source returns
the parallel lists times and throughput; here they are returned zipped as
(bucket-start-time, rate) pairs.  none models the run that raises: the
max() of line 58 on an empty sequence, np.arange with zero step, or an
IndexError from a far-negative timestamp. -/
def calculate_throughput (events : List Event) (interval : Rat) : Option (List (Rat × Rat)) :=
  match events with
  | [] => none
  | e0 :: rest =>
    if interval = 0 then none
    else
      let max_time := maxTimeFrom e0.time rest
      let n := arangeLen (max_time + interval) interval
      match throughputFold interval n events [] with
      | none => none
      | some d =>
        let times := (d.map (fun p => p.1)).insertionSort (· ≤ ·)
        some (times.map (fun t => (t, (((alookup d t).getD 0 : Rat) * 8) / interval)))

/-- Translation of calculate_packet_loss (lines 74-82). -/
def calculate_packet_loss (events : List Event) : Rat :=
  let packets_sent := events.foldl (fun n e => if e.event_type = "+" then n + 1 else n) (0 : Nat)
  let packets_dropped := events.foldl (fun n e => if e.event_type = "d" then n + 1 else n) (0 : Nat)
  if packets_sent = 0 then 0 else (packets_dropped : Rat) / (packets_sent : Rat)

/-- One iteration of the loop of calculate_end_to_end_delay (lines 90-99):
the state is the packet_times dict (as a finitely supported function) and
the delays list. -/
def e2eStep (s : (Int → Option Rat) × List Rat) (e : Event) :
    (Int → Option Rat) × List Rat :=
  if e.event_type = "+" ∧ e.from_node = 0 then
    (fun pid => if pid = e.packet_id then some e.time else s.1 pid, s.2)
  else if e.event_type = "r" ∧ e.to_node = 1 then
    match s.1 e.packet_id with
    | some t0 => (s.1, s.2 ++ [e.time - t0])
    | none => s
  else s

/-- Translation of calculate_end_to_end_delay (lines 84-101). -/
def calculate_end_to_end_delay (events : List Event) : List Rat :=
  (events.foldl e2eStep (fun _ => none, [])).2

/-- The packet_times mapping as the loop leaves it: the send-time
correlation index described by the spec. -/
def send_time (events : List Event) : Int → Option Rat :=
  (events.foldl e2eStep (fun _ => none, [])).1

/-- Per-node counters of analyze_node_activity. -/
structure NodeStats where
  sent : Nat
  received : Nat
  dropped : Nat
deriving DecidableEq, Repr

/-- Update of one entry of an insertion-ordered dict of NodeStats,
creating the entry from the defaultdict default on first use. -/
def updEntry {α : Type} [DecidableEq α] (f : NodeStats → NodeStats) :
    List (α × NodeStats) → α → List (α × NodeStats)
  | [], k => [(k, f ⟨0, 0, 0⟩)]
  | (k', v) :: rest, k =>
    if k' = k then (k', f v) :: rest else (k', v) :: updEntry f rest k

/-- One iteration of the loop of analyze_node_activity (lines 107-115). -/
def activityStep (d : List (Int × NodeStats)) (e : Event) : List (Int × NodeStats) :=
  if e.event_type = "+" then
    updEntry (fun s => { s with sent := s.sent + 1 }) d e.from_node
  else if e.event_type = "r" then
    updEntry (fun s => { s with received := s.received + 1 }) d e.to_node
  else if e.event_type = "d" then
    updEntry (fun s => { s with dropped := s.dropped + 1 }) d e.from_node
  else d

/-- Translation of analyze_node_activity (lines 103-117), the dict as an
insertion-ordered association list. -/
def analyze_node_activity (events : List Event) : List (Int × NodeStats) :=
  events.foldl activityStep []

/-- One iteration of the loop of analyze_queueing_delay (lines 124-134):
the state is queue_times (a finitely supported function on (node,
packet_id) pairs) and queue_delays (node to sample list, the
defaultdict(list)).  Both branches key on from_node, as the source does. -/
def queueStep (s : (Int × Int → Option Rat) × (Int → List Rat)) (e : Event) :
    (Int × Int → Option Rat) × (Int → List Rat) :=
  if e.event_type = "+" then
    (fun k => if k = (e.from_node, e.packet_id) then some e.time else s.1 k, s.2)
  else if e.event_type = "-" then
    match s.1 (e.from_node, e.packet_id) with
    | some t0 =>
      (s.1, fun n => if n = e.from_node then s.2 n ++ [e.time - t0] else s.2 n)
    | none => s
  else s

/-- Translation of analyze_queueing_delay (lines 119-144), read through
its lookup behavior: a node is a key of the avg_queue_delays dict exactly
when its queue_delays sample list is nonempty (keys of a defaultdict(list)
are created only by the append of line 134), and then holds the value of
the loop of lines 138-142. -/
def analyze_queueing_delay (events : List Event) : Int → Option Rat :=
  let qd := (events.foldl queueStep (fun _ => none, fun _ => [])).2
  fun node =>
    match qd node with
    | [] => none
    | ds => some (if ds ≠ [] then ds.sum / (ds.length : Rat) else 0)

/-- Translation of analyze_protocol_overhead (lines 221-238). -/
def analyze_protocol_overhead (events : List Event) : Rat :=
  let counts := events.foldl
    (fun (c : Nat × Nat) e =>
      if e.event_type = "+" then
        if e.packet_type = "tcp" then (c.1 + 1, c.2) else (c.1, c.2 + 1)
      else c) (0, 0)
  let total := counts.1 + counts.2
  if total = 0 then 0 else ((counts.2 : Rat) / (total : Rat)) * 100

/-- Count of events of one event type, used by the reference formulations. -/
def countType (events : List Event) (ty : String) : Nat :=
  List.countP (fun e => e.event_type = ty) events

/-- Count of control enqueues: enqueue events whose packet_type is not the
transport-protocol tag. -/
def controlCount (events : List Event) : Nat :=
  List.countP (fun e => e.event_type = "+" ∧ e.packet_type ≠ "tcp") events

/-- Time of the last enqueue event from the source node (node 0) carrying
the given packet id, if any. -/
def lastSendTime (events : List Event) (pid : Int) : Option Rat :=
  ((events.filter
      (fun e => e.event_type = "+" ∧ e.from_node = 0 ∧ e.packet_id = pid)).getLast?).map
    (fun e => e.time)

/-- Modelled from the spec: send_time of a packet id as the time of the
first enqueue event whose from_node is the source node, following the
sentence of spec section 3 verbatim; compared against send_time. -/
def firstSendTimeSpec (events : List Event) (pid : Int) : Option Rat :=
  ((events.filter
      (fun e => e.event_type = "+" ∧ e.from_node = 0 ∧ e.packet_id = pid)).head?).map
    (fun e => e.time)

/-- Reference delay samples: each receive at the destination node pairs
with the last source enqueue of its packet id in the already-scanned
prefix pre; a receive with no such enqueue contributes nothing. -/
def delaysFrom : List Event → List Event → List Rat
  | _, [] => []
  | pre, e :: rest =>
    (if e.event_type = "r" ∧ e.to_node = 1 then
      match lastSendTime pre e.packet_id with
      | some t0 => [e.time - t0]
      | none => []
     else []) ++ delaysFrom (pre ++ [e]) rest

/-- Reference delay-sample list of a whole event sequence. -/
def delaysSpec (events : List Event) : List Rat :=
  delaysFrom [] events

/-- Time of the last enqueue at the given node carrying the given packet
id, if any. -/
def lastEnqueueTime (events : List Event) (node pid : Int) : Option Rat :=
  ((events.filter
      (fun e => e.event_type = "+" ∧ e.from_node = node ∧ e.packet_id = pid)).getLast?).map
    (fun e => e.time)

/-- Reference queueing-delay samples of one node: each dequeue at the node
pairs with the last enqueue at the same node with the same packet id in
the already-scanned prefix; a dequeue with no such enqueue contributes
nothing. -/
def queueSamplesFrom : List Event → List Event → Int → List Rat
  | _, [], _ => []
  | pre, e :: rest, node =>
    (if e.event_type = "-" ∧ e.from_node = node then
      match lastEnqueueTime pre node e.packet_id with
      | some t0 => [e.time - t0]
      | none => []
     else []) ++ queueSamplesFrom (pre ++ [e]) rest node

/-- Reference queueing-delay samples of a node over a whole sequence. -/
def queueSamples (events : List Event) (node : Int) : List Rat :=
  queueSamplesFrom [] events node

/-- Bucket index of a timestamp: the bucket of width w containing it. -/
def bucketIdx (width t : Rat) : Int :=
  ⌊t / width⌋

/-- Ascending list of the indices of the buckets holding at least one
receive event. -/
def bucketIndices (events : List Event) (width : Rat) : List Int :=
  (((events.filter (fun e => e.event_type = "r")).map
      (fun e => bucketIdx width e.time)).dedup).insertionSort (· ≤ ·)

/-- Bytes received in one bucket. -/
def bucketBytes (events : List Event) (width : Rat) (i : Int) : Int :=
  ((events.filter
      (fun e => e.event_type = "r" ∧ bucketIdx width e.time = i)).map
    (fun e => e.packet_size)).sum

/-- Reference throughput series: one (bucket-start-time, rate) pair per
nonempty bucket, ascending in time, rate = accumulated bits / width. -/
def throughputSpec (events : List Event) (width : Rat) : List (Rat × Rat) :=
  (bucketIndices events width).map
    (fun i => (((i : Int) : Rat) * width, ((bucketBytes events width i : Rat) * 8) / width))

/-- Reference per-node counters: events sent from, received at and dropped
at the node. -/
def nodeCounts (events : List Event) (n : Int) : NodeStats :=
  ⟨List.countP (fun e => e.event_type = "+" ∧ e.from_node = n) events,
   List.countP (fun e => e.event_type = "r" ∧ e.to_node = n) events,
   List.countP (fun e => e.event_type = "d" ∧ e.from_node = n) events⟩

/-- Componentwise sum of two per-node counters. -/
def statAdd (a b : NodeStats) : NodeStats :=
  ⟨a.sent + b.sent, a.received + b.received, a.dropped + b.dropped⟩

/-- The event of one line, when the line yields one. -/
def evOf (l : String) : Option Event :=
  match parseLine l with
  | .ev e => some e
  | _ => none

/-- Number of receive events falling in one bucket. -/
def bucketCount (events : List Event) (width : Rat) (i : Int) : Nat :=
  List.countP (fun e => e.event_type = "r" ∧ bucketIdx width e.time = i) events

/-- Pure accumulation of the throughput dict: receives only, keyed by the
bucket start time. -/
def bucketsOf (w : Rat) (l : List Event) (d : List (Rat × Int)) : List (Rat × Int) :=
  l.foldl
    (fun d e =>
      if e.event_type = "r" then
        addTo d (((bucketIdx w e.time : Int) : Rat) * w) e.packet_size
      else d) d

/-- Convenience constructor for concrete example events. -/
def mkEv (ty : String) (t : Rat) (fn tn : Int) (pt : String) (sz pid : Int) : Event :=
  { event_type := ty, time := t, from_node := fn, to_node := tn, packet_type := pt,
    packet_size := sz, flags := "---", flow_id := 1, src_addr := "0.0", dst_addr := "1.0",
    seq_num := 0, packet_id := pid }

lemma foldl_ite_count (p : Event → Prop) [DecidablePred p] (l : List Event) (a : Nat) :
    l.foldl (fun n e => if p e then n + 1 else n) a = a + l.countP (fun e => decide (p e)) := by
  induction l generalizing a with
  | nil => simp
  | cons e t ih =>
    simp only [List.foldl_cons, ih, List.countP_cons]
    by_cases h : p e
    · simp [h]; omega
    · simp [h]

lemma packets_sent_eq (events : List Event) :
    events.foldl (fun n e => if e.event_type = "+" then n + 1 else n) (0 : Nat) =
      countType events "+" := by
  simpa using foldl_ite_count (fun e => e.event_type = "+") events 0

lemma packets_dropped_eq (events : List Event) :
    events.foldl (fun n e => if e.event_type = "d" then n + 1 else n) (0 : Nat) =
      countType events "d" := by
  simpa using foldl_ite_count (fun e => e.event_type = "d") events 0

/-- C3: the packet-loss ratio is the drop count over the enqueue count,
0 when there are no enqueues, for arbitrary input; and adversarial input
can push the ratio above 1. -/
theorem c3_packet_loss_ratio :
    (∀ events : List Event,
        calculate_packet_loss events =
          if countType events "+" = 0 then 0
          else (countType events "d" : Rat) / (countType events "+" : Rat)) ∧
    (∃ events : List Event, 1 < calculate_packet_loss events) := by
  constructor
  · intro events
    unfold calculate_packet_loss
    rw [packets_sent_eq, packets_dropped_eq]
  · refine ⟨[mkEv "d" 0 0 1 "tcp" 100 1, mkEv "d" 0 0 1 "tcp" 100 2,
             mkEv "+" 0 0 1 "tcp" 100 3], ?_⟩
    have h2 : calculate_packet_loss [mkEv "d" 0 0 1 "tcp" 100 1, mkEv "d" 0 0 1 "tcp" 100 2,
        mkEv "+" 0 0 1 "tcp" 100 3] = 2 := by
      simp [calculate_packet_loss, mkEv]
    rw [h2]; norm_num

lemma overhead_counts (l : List Event) (c : Nat × Nat) :
    l.foldl
      (fun (c : Nat × Nat) e =>
        if e.event_type = "+" then
          if e.packet_type = "tcp" then (c.1 + 1, c.2) else (c.1, c.2 + 1)
        else c) c =
    (c.1 + List.countP (fun e => e.event_type = "+" ∧ e.packet_type = "tcp") l,
     c.2 + controlCount l) := by
  induction l generalizing c with
  | nil => simp [controlCount]
  | cons e t ih =>
    simp only [List.foldl_cons, ih, controlCount, List.countP_cons]
    by_cases h : e.event_type = "+"
    · by_cases h2 : e.packet_type = "tcp"
      · simp [h, h2]; omega
      · simp [h, h2]; omega
    · simp [h]

lemma countP_split {α : Type} (p q : α → Bool) (l : List α) :
    List.countP (fun a => p a && q a) l + List.countP (fun a => p a && !(q a)) l =
      List.countP p l := by
  induction l with
  | nil => rfl
  | cons a t ih =>
    rw [List.countP_cons, List.countP_cons, List.countP_cons]
    cases hp : p a
    · simp [hp]; omega
    · cases hq : q a
      · simp [hp, hq]; omega
      · simp [hp, hq]; omega

lemma data_add_control (l : List Event) :
    List.countP (fun e => e.event_type = "+" ∧ e.packet_type = "tcp") l + controlCount l =
      countType l "+" := by
  unfold controlCount countType
  simp only [ne_eq, Bool.decide_and, decide_not]
  exact countP_split (fun e : Event => decide (e.event_type = "+"))
    (fun e : Event => decide (e.packet_type = "tcp")) l

/-- C8: the protocol-overhead percentage looks only at enqueue events,
counts an enqueue as data exactly when its packet_type is the tcp tag and
as control otherwise, and equals control / (control + data) * 100, with 0
when there are no enqueue events. -/
theorem c8_protocol_overhead (events : List Event) :
    analyze_protocol_overhead events =
      if countType events "+" = 0 then 0
      else ((controlCount events : Rat) / (countType events "+" : Rat)) * 100 := by
  unfold analyze_protocol_overhead
  rw [overhead_counts]
  simp only [Nat.zero_add]
  rw [data_add_control]

lemma statAdd_zero_right (s : NodeStats) : statAdd s ⟨0, 0, 0⟩ = s := by
  cases s; simp [statAdd]

lemma statAdd_shift (d s c : NodeStats) :
    statAdd (statAdd d s) c = statAdd s (statAdd d c) := by
  cases d; cases s; cases c; simp [statAdd]; omega

lemma statAdd_ne_zero (d c : NodeStats) (hd : d ≠ ⟨0, 0, 0⟩) :
    statAdd d c ≠ ⟨0, 0, 0⟩ := by
  cases d; cases c
  simp only [statAdd, ne_eq, NodeStats.mk.injEq, not_and] at *
  omega

lemma alookup_updEntry {α : Type} [DecidableEq α] (f : NodeStats → NodeStats)
    (d : List (α × NodeStats)) (k n : α) :
    alookup (updEntry f d k) n =
      if n = k then some (f ((alookup d k).getD ⟨0, 0, 0⟩)) else alookup d n := by
  induction d with
  | nil =>
    by_cases h : n = k
    · subst h; simp [updEntry, alookup]
    · simp [updEntry, alookup, h, Ne.symm h]
  | cons kv rest ih =>
    obtain ⟨k', v⟩ := kv
    by_cases hk : k' = k
    · subst hk
      by_cases hn : n = k'
      · subst hn; simp [updEntry, alookup]
      · simp [updEntry, alookup, hn, Ne.symm hn]
    · by_cases hn : n = k
      · subst hn
        simp [updEntry, alookup, hk, ih, Ne.symm hk]
      · by_cases he : k' = n
        · subst he; simp [updEntry, alookup, hk, hn]
        · simp [updEntry, alookup, hk, hn, he, ih]

lemma nodeCounts_cons_enq (e : Event) (t : List Event) (n : Int) (h : e.event_type = "+") :
    nodeCounts (e :: t) n =
      if n = e.from_node then statAdd ⟨1, 0, 0⟩ (nodeCounts t n) else nodeCounts t n := by
  by_cases hn : n = e.from_node
  · subst hn
    simp [nodeCounts, List.countP_cons, statAdd, h, NodeStats.mk.injEq]
    omega
  · simp [nodeCounts, List.countP_cons, statAdd, h, hn, Ne.symm hn, NodeStats.mk.injEq]

lemma nodeCounts_cons_recv (e : Event) (t : List Event) (n : Int) (h : e.event_type = "r") :
    nodeCounts (e :: t) n =
      if n = e.to_node then statAdd ⟨0, 1, 0⟩ (nodeCounts t n) else nodeCounts t n := by
  by_cases hn : n = e.to_node
  · subst hn
    simp [nodeCounts, List.countP_cons, statAdd, h, NodeStats.mk.injEq]
    omega
  · simp [nodeCounts, List.countP_cons, statAdd, h, hn, Ne.symm hn, NodeStats.mk.injEq]

lemma nodeCounts_cons_drop (e : Event) (t : List Event) (n : Int) (h : e.event_type = "d") :
    nodeCounts (e :: t) n =
      if n = e.from_node then statAdd ⟨0, 0, 1⟩ (nodeCounts t n) else nodeCounts t n := by
  by_cases hn : n = e.from_node
  · subst hn
    simp [nodeCounts, List.countP_cons, statAdd, h, NodeStats.mk.injEq]
    omega
  · simp [nodeCounts, List.countP_cons, statAdd, h, hn, Ne.symm hn, NodeStats.mk.injEq]

lemma nodeCounts_cons_other (e : Event) (t : List Event) (n : Int)
    (h1 : ¬e.event_type = "+") (h2 : ¬e.event_type = "r") (h3 : ¬e.event_type = "d") :
    nodeCounts (e :: t) n = nodeCounts t n := by
  simp [nodeCounts, List.countP_cons, h1, h2, h3]

lemma match_updEntry (d : List (Int × NodeStats)) (n k : Int) (delta cnt : NodeStats)
    (hδ : delta ≠ ⟨0, 0, 0⟩) :
    (match alookup (updEntry (statAdd delta) d k) n with
     | some s => some (statAdd s cnt)
     | none => if cnt = (⟨0, 0, 0⟩ : NodeStats) then none else some cnt) =
    (match alookup d n with
     | some s => some (statAdd s (if n = k then statAdd delta cnt else cnt))
     | none =>
        if (if n = k then statAdd delta cnt else cnt) = (⟨0, 0, 0⟩ : NodeStats) then none
        else some (if n = k then statAdd delta cnt else cnt)) := by
  rw [alookup_updEntry]
  by_cases hn : n = k
  · subst hn
    cases hd : alookup d n with
    | none => simp [hd, statAdd_zero_right, statAdd_ne_zero delta cnt hδ]
    | some s => simp [hd, statAdd_shift]
  · simp [hn]

lemma activity_fold_lookup (l : List Event) (d : List (Int × NodeStats)) (n : Int) :
    alookup (l.foldl activityStep d) n =
      match alookup d n with
      | some s => some (statAdd s (nodeCounts l n))
      | none =>
        if nodeCounts l n = (⟨0, 0, 0⟩ : NodeStats) then none
        else some (nodeCounts l n) := by
  induction l generalizing d with
  | nil =>
    cases hd : alookup d n <;> simp [hd, nodeCounts, statAdd_zero_right]
  | cons e t ih =>
    rw [List.foldl_cons, ih]
    by_cases h1 : e.event_type = "+"
    · have hf : (fun s : NodeStats => { s with sent := s.sent + 1 }) = statAdd ⟨1, 0, 0⟩ := by
        funext s; cases s; simp [statAdd]; omega
      have hstep : activityStep d e = updEntry (statAdd ⟨1, 0, 0⟩) d e.from_node := by
        simp [activityStep, h1, hf]
      rw [nodeCounts_cons_enq e t n h1, hstep,
        match_updEntry d n e.from_node ⟨1, 0, 0⟩ (nodeCounts t n) (by simp)]
    · by_cases h2 : e.event_type = "r"
      · have hf : (fun s : NodeStats => { s with received := s.received + 1 }) =
            statAdd ⟨0, 1, 0⟩ := by
          funext s; cases s; simp [statAdd]; omega
        have hstep : activityStep d e = updEntry (statAdd ⟨0, 1, 0⟩) d e.to_node := by
          simp [activityStep, h1, h2, hf]
        rw [nodeCounts_cons_recv e t n h2, hstep,
          match_updEntry d n e.to_node ⟨0, 1, 0⟩ (nodeCounts t n) (by simp)]
      · by_cases h3 : e.event_type = "d"
        · have hf : (fun s : NodeStats => { s with dropped := s.dropped + 1 }) =
              statAdd ⟨0, 0, 1⟩ := by
            funext s; cases s; simp [statAdd]; omega
          have hstep : activityStep d e = updEntry (statAdd ⟨0, 0, 1⟩) d e.from_node := by
            simp [activityStep, h1, h2, h3, hf]
          rw [nodeCounts_cons_drop e t n h3, hstep,
            match_updEntry d n e.from_node ⟨0, 0, 1⟩ (nodeCounts t n) (by simp)]
        · have hstep : activityStep d e = d := by
            simp [activityStep, h1, h2, h3]
          rw [nodeCounts_cons_other e t n h1 h2 h3, hstep]

/-- Lookup characterization of analyze_node_activity: a node appears in
the result exactly when some event touches it, and then its counters are
the per-node event counts. -/
lemma activity_lookup (events : List Event) (n : Int) :
    alookup (analyze_node_activity events) n =
      if nodeCounts events n = ⟨0, 0, 0⟩ then none else some (nodeCounts events n) := by
  have h := activity_fold_lookup events [] n
  simpa [analyze_node_activity, alookup] using h

lemma countType_cons (e : Event) (t : List Event) (ty : String) :
    countType (e :: t) ty = countType t ty + (if e.event_type = ty then 1 else 0) := by
  simp [countType, List.countP_cons]

lemma updEntry_sum {α : Type} [DecidableEq α] (f : NodeStats → NodeStats) (g : NodeStats → Nat)
    (c : Nat) (hf : ∀ s, g (f s) = g s + c) (h0 : g ⟨0, 0, 0⟩ = 0)
    (d : List (α × NodeStats)) (k : α) :
    ((updEntry f d k).map (fun p => g p.2)).sum = (d.map (fun p => g p.2)).sum + c := by
  induction d with
  | nil => simp [updEntry, hf, h0]
  | cons kv rest ih =>
    obtain ⟨k', v⟩ := kv
    by_cases h : k' = k
    · simp [updEntry, h, hf]; omega
    · simp [updEntry, h, ih]; omega

lemma activity_fold_sums (l : List Event) (d : List (Int × NodeStats)) :
    (((l.foldl activityStep d).map (fun p => p.2.sent)).sum =
        (d.map (fun p => p.2.sent)).sum + countType l "+") ∧
    (((l.foldl activityStep d).map (fun p => p.2.received)).sum =
        (d.map (fun p => p.2.received)).sum + countType l "r") ∧
    (((l.foldl activityStep d).map (fun p => p.2.dropped)).sum =
        (d.map (fun p => p.2.dropped)).sum + countType l "d") := by
  induction l generalizing d with
  | nil => simp [countType]
  | cons e t ih =>
    rw [List.foldl_cons]
    obtain ⟨ihs, ihr, ihd⟩ := ih (activityStep d e)
    by_cases h1 : e.event_type = "+"
    · have hstep : activityStep d e =
          updEntry (fun s => { s with sent := s.sent + 1 }) d e.from_node := by
        simp [activityStep, h1]
      refine ⟨?_, ?_, ?_⟩
      · rw [ihs, hstep, updEntry_sum (fun s : NodeStats => { s with sent := s.sent + 1 }) (fun s => s.sent) 1 (fun s => rfl) rfl,
          countType_cons]
        simp [h1]; omega
      · rw [ihr, hstep,
          updEntry_sum (fun s : NodeStats => { s with sent := s.sent + 1 }) (fun s => s.received) 0 (fun s => (Nat.add_zero _).symm) rfl,
          countType_cons]
        simp [h1]
      · rw [ihd, hstep,
          updEntry_sum (fun s : NodeStats => { s with sent := s.sent + 1 }) (fun s => s.dropped) 0 (fun s => (Nat.add_zero _).symm) rfl,
          countType_cons]
        simp [h1]
    · by_cases h2 : e.event_type = "r"
      · have hstep : activityStep d e =
            updEntry (fun s => { s with received := s.received + 1 }) d e.to_node := by
          simp [activityStep, h1, h2]
        refine ⟨?_, ?_, ?_⟩
        · rw [ihs, hstep,
            updEntry_sum (fun s : NodeStats => { s with received := s.received + 1 }) (fun s => s.sent) 0 (fun s => (Nat.add_zero _).symm) rfl,
            countType_cons]
          simp [h2]
        · rw [ihr, hstep, updEntry_sum (fun s : NodeStats => { s with received := s.received + 1 }) (fun s => s.received) 1 (fun s => rfl) rfl,
            countType_cons]
          simp [h2]; omega
        · rw [ihd, hstep,
            updEntry_sum (fun s : NodeStats => { s with received := s.received + 1 }) (fun s => s.dropped) 0 (fun s => (Nat.add_zero _).symm) rfl,
            countType_cons]
          simp [h2]
      · by_cases h3 : e.event_type = "d"
        · have hstep : activityStep d e =
              updEntry (fun s => { s with dropped := s.dropped + 1 }) d e.from_node := by
            simp [activityStep, h1, h2, h3]
          refine ⟨?_, ?_, ?_⟩
          · rw [ihs, hstep,
              updEntry_sum (fun s : NodeStats => { s with dropped := s.dropped + 1 }) (fun s => s.sent) 0 (fun s => (Nat.add_zero _).symm) rfl,
              countType_cons]
            simp [h3]
          · rw [ihr, hstep,
              updEntry_sum (fun s : NodeStats => { s with dropped := s.dropped + 1 }) (fun s => s.received) 0 (fun s => (Nat.add_zero _).symm) rfl,
              countType_cons]
            simp [h3]
          · rw [ihd, hstep, updEntry_sum (fun s : NodeStats => { s with dropped := s.dropped + 1 }) (fun s => s.dropped) 1 (fun s => rfl) rfl,
              countType_cons]
            simp [h3]; omega
        · have hstep : activityStep d e = d := by
            simp [activityStep, h1, h2, h3]
          refine ⟨?_, ?_, ?_⟩
          · rw [hstep] at ihs; rw [hstep, ihs, countType_cons]; simp [h1]
          · rw [hstep] at ihr; rw [hstep, ihr, countType_cons]; simp [h2]
          · rw [hstep] at ihd; rw [hstep, ihd, countType_cons]; simp [h3]

/-- C10: summing the per-node sent, received and dropped counters over the
node-activity result yields the total number of enqueue, receive and drop
events respectively. -/
theorem c10_activity_sums (events : List Event) :
    (((analyze_node_activity events).map (fun p => p.2.sent)).sum = countType events "+") ∧
    (((analyze_node_activity events).map (fun p => p.2.received)).sum = countType events "r") ∧
    (((analyze_node_activity events).map (fun p => p.2.dropped)).sum = countType events "d") := by
  have h := activity_fold_sums events []
  simpa [analyze_node_activity] using h

lemma lastSendTime_nil (pid : Int) : lastSendTime [] pid = none := by
  simp [lastSendTime]

lemma lastSendTime_append (pre : List Event) (e : Event) (pid : Int) :
    lastSendTime (pre ++ [e]) pid =
      if e.event_type = "+" ∧ e.from_node = 0 ∧ e.packet_id = pid then some e.time
      else lastSendTime pre pid := by
  unfold lastSendTime
  rw [List.filter_append]
  by_cases h : e.event_type = "+" ∧ e.from_node = 0 ∧ e.packet_id = pid
  · simp [h, List.getLast?_concat]
  · simp [h]

lemma e2e_fold (l : List Event) (pre : List Event) (m : Int → Option Rat) (ds : List Rat)
    (hm : ∀ pid, m pid = lastSendTime pre pid) :
    (∀ pid, (l.foldl e2eStep (m, ds)).1 pid = lastSendTime (pre ++ l) pid) ∧
    (l.foldl e2eStep (m, ds)).2 = ds ++ delaysFrom pre l := by
  induction l generalizing pre m ds with
  | nil => simp [hm, delaysFrom]
  | cons e t ih =>
    rw [List.foldl_cons]
    by_cases h1 : e.event_type = "+" ∧ e.from_node = 0
    · have hstep : e2eStep (m, ds) e =
          (fun pid => if pid = e.packet_id then some e.time else m pid, ds) := by
        simp [e2eStep, h1]
      rw [hstep]
      have hm' : ∀ pid,
          (fun pid => if pid = e.packet_id then some e.time else m pid) pid =
            lastSendTime (pre ++ [e]) pid := by
        intro pid
        rw [lastSendTime_append]
        by_cases hp : pid = e.packet_id
        · simp [hp, h1.1, h1.2]
        · have hf : e.event_type = "+" ∧ e.from_node = 0 ∧ e.packet_id = pid → False :=
            fun hh => hp hh.2.2.symm
          simp only [hp, if_false, hm]
          rw [if_neg hf]
      obtain ⟨ih1, ih2⟩ := ih (pre ++ [e]) _ ds hm'
      refine ⟨fun pid => ?_, ?_⟩
      · have hpa : pre ++ [e] ++ t = pre ++ e :: t := by simp
        rw [hpa] at ih1
        exact ih1 pid
      · rw [ih2]
        have : delaysFrom pre (e :: t) = delaysFrom (pre ++ [e]) t := by
          simp [delaysFrom, h1.1]
        rw [this]
    · by_cases h2 : e.event_type = "r" ∧ e.to_node = 1
      · have hm' : ∀ pid, m pid = lastSendTime (pre ++ [e]) pid := by
          intro pid
          rw [lastSendTime_append, if_neg, hm]
          intro hh
          exact h1 ⟨hh.1, hh.2.1⟩
        cases hl : lastSendTime pre e.packet_id with
        | some t0 =>
          have hstep : e2eStep (m, ds) e = (m, ds ++ [e.time - t0]) := by
            have := hm e.packet_id
            simp [e2eStep, h1, h2, this, hl]
          rw [hstep]
          obtain ⟨ih1, ih2⟩ := ih (pre ++ [e]) m (ds ++ [e.time - t0]) hm'
          refine ⟨fun pid => ?_, ?_⟩
          · have hpa : pre ++ [e] ++ t = pre ++ e :: t := by simp
            rw [hpa] at ih1
            exact ih1 pid
          · rw [ih2]
            have : delaysFrom pre (e :: t) =
                [e.time - t0] ++ delaysFrom (pre ++ [e]) t := by
              simp [delaysFrom, h2, hl]
            rw [this, List.append_assoc]
        | none =>
          have hstep : e2eStep (m, ds) e = (m, ds) := by
            have := hm e.packet_id
            simp [e2eStep, h1, h2, this, hl]
          rw [hstep]
          obtain ⟨ih1, ih2⟩ := ih (pre ++ [e]) m ds hm'
          refine ⟨fun pid => ?_, ?_⟩
          · have hpa : pre ++ [e] ++ t = pre ++ e :: t := by simp
            rw [hpa] at ih1
            exact ih1 pid
          · rw [ih2]
            have : delaysFrom pre (e :: t) = delaysFrom (pre ++ [e]) t := by
              simp [delaysFrom, h2, hl]
            rw [this]
      · have hstep : e2eStep (m, ds) e = (m, ds) := by
          simp [e2eStep, h1, h2]
        rw [hstep]
        have hm' : ∀ pid, m pid = lastSendTime (pre ++ [e]) pid := by
          intro pid
          rw [lastSendTime_append, if_neg, hm]
          intro hh
          exact h1 ⟨hh.1, hh.2.1⟩
        obtain ⟨ih1, ih2⟩ := ih (pre ++ [e]) m ds hm'
        refine ⟨fun pid => ?_, ?_⟩
        · have hpa : pre ++ [e] ++ t = pre ++ e :: t := by simp
          rw [hpa] at ih1
          exact ih1 pid
        · rw [ih2]
          have : delaysFrom pre (e :: t) = delaysFrom (pre ++ [e]) t := by
            simp [delaysFrom, h2]
          rw [this]

lemma calculate_end_to_end_delay_eq_spec (events : List Event) :
    calculate_end_to_end_delay events = delaysSpec events := by
  have h := (e2e_fold events [] (fun _ => none) []
    (fun pid => (lastSendTime_nil pid).symm)).2
  simpa [calculate_end_to_end_delay, delaysSpec] using h

lemma send_time_eq_last (events : List Event) (pid : Int) :
    send_time events pid = lastSendTime events pid := by
  have h := (e2e_fold events [] (fun _ => none) []
    (fun q => (lastSendTime_nil q).symm)).1 pid
  simpa [send_time] using h

/-- C5: each receive event at the destination node whose packet id has a
recorded send time contributes exactly one delay sample, the receive time
minus that recorded send time (the time of the last source enqueue of the
id already scanned); a destination receive with no recorded send time
contributes no sample at all. -/
theorem c5_delay_samples (events : List Event) :
    calculate_end_to_end_delay events = delaysSpec events :=
  calculate_end_to_end_delay_eq_spec events

/-- C6 (corrected): the recorded send time of a packet id is the time of
the last source-node enqueue carrying that id, not of the first. -/
theorem c6_send_time_is_last (events : List Event) (pid : Int) :
    send_time events pid = lastSendTime events pid :=
  send_time_eq_last events pid

/-- C6, counterexample to the claim as stated: with two source enqueues of
packet 7 at times 1 and 2, the engine records send time 2 (the last),
while the claim says the first enqueue's time 1 is recorded. -/
theorem c6_first_enqueue_counterexample :
    firstSendTimeSpec [mkEv "+" 1 0 1 "tcp" 100 7, mkEv "+" 2 0 1 "tcp" 100 7] 7 = some 1 ∧
    send_time [mkEv "+" 1 0 1 "tcp" 100 7, mkEv "+" 2 0 1 "tcp" 100 7] 7 = some 2 ∧
    send_time [mkEv "+" 1 0 1 "tcp" 100 7, mkEv "+" 2 0 1 "tcp" 100 7] 7 ≠
      firstSendTimeSpec [mkEv "+" 1 0 1 "tcp" 100 7, mkEv "+" 2 0 1 "tcp" 100 7] 7 := by
  have h1 : firstSendTimeSpec [mkEv "+" 1 0 1 "tcp" 100 7, mkEv "+" 2 0 1 "tcp" 100 7] 7 =
      some 1 := by
    simp [firstSendTimeSpec, mkEv]
  have h2 : send_time [mkEv "+" 1 0 1 "tcp" 100 7, mkEv "+" 2 0 1 "tcp" 100 7] 7 =
      some 2 := by
    simp [send_time, e2eStep, mkEv]
  refine ⟨h1, h2, ?_⟩
  rw [h1, h2]
  intro habs
  rw [Option.some.injEq] at habs
  norm_num at habs

lemma lastEnqueueTime_nil (node pid : Int) : lastEnqueueTime [] node pid = none := by
  simp [lastEnqueueTime]

lemma lastEnqueueTime_append (pre : List Event) (e : Event) (node pid : Int) :
    lastEnqueueTime (pre ++ [e]) node pid =
      if e.event_type = "+" ∧ e.from_node = node ∧ e.packet_id = pid then some e.time
      else lastEnqueueTime pre node pid := by
  unfold lastEnqueueTime
  rw [List.filter_append]
  by_cases h : e.event_type = "+" ∧ e.from_node = node ∧ e.packet_id = pid
  · simp [h, List.getLast?_concat]
  · simp [h]

lemma queue_fold (l : List Event) (pre : List Event)
    (qt : Int × Int → Option Rat) (qd : Int → List Rat)
    (hqt : ∀ n pid, qt (n, pid) = lastEnqueueTime pre n pid) :
    (∀ n pid, (l.foldl queueStep (qt, qd)).1 (n, pid) = lastEnqueueTime (pre ++ l) n pid) ∧
    (∀ n, (l.foldl queueStep (qt, qd)).2 n = qd n ++ queueSamplesFrom pre l n) := by
  induction l generalizing pre qt qd with
  | nil => simp [hqt, queueSamplesFrom]
  | cons e t ih =>
    rw [List.foldl_cons]
    by_cases h1 : e.event_type = "+"
    · have hstep : queueStep (qt, qd) e =
          (fun k => if k = (e.from_node, e.packet_id) then some e.time else qt k, qd) := by
        simp [queueStep, h1]
      rw [hstep]
      have hqt' : ∀ n pid,
          (fun k => if k = (e.from_node, e.packet_id) then some e.time else qt k) (n, pid) =
            lastEnqueueTime (pre ++ [e]) n pid := by
        intro n pid
        rw [lastEnqueueTime_append]
        by_cases hk : (n, pid) = (e.from_node, e.packet_id)
        · have hn : e.from_node = n := (congrArg Prod.fst hk).symm
          have hp : e.packet_id = pid := (congrArg Prod.snd hk).symm
          simp [hk, h1, hn, hp]
        · have hcond : ¬(e.event_type = "+" ∧ e.from_node = n ∧ e.packet_id = pid) := by
            intro hh
            exact hk (by rw [hh.2.1, hh.2.2])
          simp only [hk, if_false]
          rw [if_neg hcond, hqt]
      obtain ⟨ih1, ih2⟩ := ih (pre ++ [e])
        (fun k => if k = (e.from_node, e.packet_id) then some e.time else qt k) qd hqt'
      have hpa : pre ++ [e] ++ t = pre ++ e :: t := by simp
      rw [hpa] at ih1
      refine ⟨fun n pid => ih1 n pid, fun n => ?_⟩
      rw [ih2 n]
      have : queueSamplesFrom pre (e :: t) n = queueSamplesFrom (pre ++ [e]) t n := by
        simp [queueSamplesFrom, h1]
      rw [this]
    · have hqt' : ∀ n pid, qt (n, pid) = lastEnqueueTime (pre ++ [e]) n pid := by
        intro n pid
        rw [lastEnqueueTime_append, if_neg, hqt]
        intro hh
        exact h1 hh.1
      by_cases h2 : e.event_type = "-"
      · cases hl : lastEnqueueTime pre e.from_node e.packet_id with
        | some t0 =>
          have hstep : queueStep (qt, qd) e =
              (qt, fun n => if n = e.from_node then qd n ++ [e.time - t0] else qd n) := by
            have := hqt e.from_node e.packet_id
            simp [queueStep, h1, h2, this, hl]
          rw [hstep]
          obtain ⟨ih1, ih2⟩ := ih (pre ++ [e]) qt
            (fun n => if n = e.from_node then qd n ++ [e.time - t0] else qd n) hqt'
          have hpa : pre ++ [e] ++ t = pre ++ e :: t := by simp
          rw [hpa] at ih1
          refine ⟨fun n pid => ih1 n pid, fun n => ?_⟩
          rw [ih2 n]
          by_cases hn : n = e.from_node
          · have : queueSamplesFrom pre (e :: t) n =
                [e.time - t0] ++ queueSamplesFrom (pre ++ [e]) t n := by
              subst hn
              simp [queueSamplesFrom, h2, hl]
            rw [this, hn]
            simp [List.append_assoc]
          · have : queueSamplesFrom pre (e :: t) n = queueSamplesFrom (pre ++ [e]) t n := by
              have hcond : ¬(e.event_type = "-" ∧ e.from_node = n) := by
                intro hh
                exact hn hh.2.symm
              simp [queueSamplesFrom, hcond]
            rw [this]
            simp [hn]
        | none =>
          have hstep : queueStep (qt, qd) e = (qt, qd) := by
            have := hqt e.from_node e.packet_id
            simp [queueStep, h1, h2, this, hl]
          rw [hstep]
          obtain ⟨ih1, ih2⟩ := ih (pre ++ [e]) qt qd hqt'
          have hpa : pre ++ [e] ++ t = pre ++ e :: t := by simp
          rw [hpa] at ih1
          refine ⟨fun n pid => ih1 n pid, fun n => ?_⟩
          rw [ih2 n]
          by_cases hn : n = e.from_node
          · have : queueSamplesFrom pre (e :: t) n = queueSamplesFrom (pre ++ [e]) t n := by
              subst hn
              simp [queueSamplesFrom, h2, hl]
            rw [this]
          · have : queueSamplesFrom pre (e :: t) n = queueSamplesFrom (pre ++ [e]) t n := by
              have hcond : ¬(e.event_type = "-" ∧ e.from_node = n) := by
                intro hh
                exact hn hh.2.symm
              simp [queueSamplesFrom, hcond]
            rw [this]
      · have hstep : queueStep (qt, qd) e = (qt, qd) := by
          simp [queueStep, h1, h2]
        rw [hstep]
        obtain ⟨ih1, ih2⟩ := ih (pre ++ [e]) qt qd hqt'
        have hpa : pre ++ [e] ++ t = pre ++ e :: t := by simp
        rw [hpa] at ih1
        refine ⟨fun n pid => ih1 n pid, fun n => ?_⟩
        rw [ih2 n]
        have : queueSamplesFrom pre (e :: t) n = queueSamplesFrom (pre ++ [e]) t n := by
          simp [queueSamplesFrom, h2]
        rw [this]

lemma queue_delays_eq (events : List Event) (n : Int) :
    (events.foldl queueStep (fun _ => none, fun _ => [])).2 n = queueSamples events n := by
  have h := (queue_fold events [] (fun _ => none) (fun _ => [])
    (fun n pid => (lastEnqueueTime_nil n pid).symm)).2 n
  simpa [queueSamples] using h

/-- C7 (corrected): every dequeue at a node whose (node, packet id) pair has
a recorded enqueue time contributes one sample, the dequeue time minus the
last such enqueue time; a dequeue for a packet never enqueued at the node
contributes nothing; a node's reported value is the arithmetic mean of its
samples; and a node with zero matched pairs is absent from the result
rather than reported as 0. -/
theorem c7_queueing_delay (events : List Event) (node : Int) :
    analyze_queueing_delay events node =
      if queueSamples events node = [] then none
      else some ((queueSamples events node).sum / ((queueSamples events node).length : Rat)) := by
  unfold analyze_queueing_delay
  rw [queue_delays_eq]
  cases hs : queueSamples events node with
  | nil => simp
  | cons a t => simp

/-- C7, counterexample to the claim as stated: node 3 sees one enqueue and
no dequeue, so it has zero matched pairs; the claim says it reports average
delay 0, but the result has no entry for it at all. -/
theorem c7_zero_pairs_absent_counterexample :
    analyze_queueing_delay [mkEv "+" 1 3 1 "tcp" 100 42] 3 = none ∧
    analyze_queueing_delay [mkEv "+" 1 3 1 "tcp" 100 42] 3 ≠ some 0 := by
  have h : analyze_queueing_delay [mkEv "+" 1 3 1 "tcp" 100 42] 3 = none := by
    simp [analyze_queueing_delay, queueStep, mkEv]
  refine ⟨h, ?_⟩
  rw [h]
  simp

lemma parseTraceAux_err (ls : List String) (acc : List Event)
    (h : ∃ l ∈ ls, parseLine l = .err) : parseTraceAux ls acc = [] := by
  induction ls generalizing acc with
  | nil => simp at h
  | cons l ls' ih =>
    obtain ⟨w, hw, hwe⟩ := h
    rcases List.mem_cons.mp hw with hww | hww
    · subst hww
      simp [parseTraceAux, hwe]
    · cases hpl : parseLine l with
      | skip => simp [parseTraceAux, hpl, ih acc ⟨w, hww, hwe⟩]
      | ev e => simp [parseTraceAux, hpl, ih (e :: acc) ⟨w, hww, hwe⟩]
      | err => simp [parseTraceAux, hpl]

lemma parseTraceAux_ok (ls : List String) (acc : List Event)
    (h : ∀ l ∈ ls, parseLine l ≠ .err) :
    parseTraceAux ls acc = acc.reverse ++ ls.filterMap evOf := by
  induction ls generalizing acc with
  | nil => simp [parseTraceAux]
  | cons l ls' ih =>
    have hl := h l (List.mem_cons_self l ls')
    have h' : ∀ x ∈ ls', parseLine x ≠ .err := fun x hx => h x (List.mem_cons_of_mem l hx)
    cases hpl : parseLine l with
    | skip =>
      rw [show parseTraceAux (l :: ls') acc = parseTraceAux ls' acc by
        simp [parseTraceAux, hpl]]
      rw [ih acc h']
      simp [List.filterMap_cons, evOf, hpl]
    | ev e =>
      rw [show parseTraceAux (l :: ls') acc = parseTraceAux ls' (e :: acc) by
        simp [parseTraceAux, hpl]]
      rw [ih (e :: acc) h']
      simp [List.filterMap_cons, evOf, hpl]
    | err => exact absurd hpl hl

/-- C2 (corrected): a non-comment line with at least 12 fields whose
numeric field fails to convert does not merely lose that line: the
ValueError propagates to the try/except around the whole loop, so the
entire file parses to zero events; only comment lines and lines with fewer
than 12 fields are skipped locally with parsing continuing. -/
theorem c2_parse_abort_behavior (lines : List String) :
    ((∃ l ∈ lines, parseLine l = .err) → parse_trace_file lines = []) ∧
    ((∀ l ∈ lines, parseLine l ≠ .err) →
      parse_trace_file lines = lines.filterMap evOf) := by
  constructor
  · intro h
    exact parseTraceAux_err lines [] h
  · intro h
    simpa [parse_trace_file] using parseTraceAux_ok lines [] h

/-- C2, counterexample to the claim as stated: the second line has 12
whitespace-separated fields and a non-numeric time field; the claim says
only that line is skipped, yet its presence makes the whole file yield
zero events, losing the first line's event too. -/
theorem c2_single_line_skip_counterexample :
    (pySplit "+ xx 0 1 tcp 100 --- 1 0.0 1.0 1 2").length = 12 ∧
    parseLine "+ xx 0 1 tcp 100 --- 1 0.0 1.0 1 2" = .err ∧
    (parse_trace_file ["+ 0.25 0 1 tcp 100 --- 1 0.0 1.0 1 1"]).length = 1 ∧
    parse_trace_file
      ["+ 0.25 0 1 tcp 100 --- 1 0.0 1.0 1 1", "+ xx 0 1 tcp 100 --- 1 0.0 1.0 1 2"] = [] := by
  refine ⟨by decide, by decide, by decide, by decide⟩

/-- Witness for the corrected C2 at concrete inputs: a file with one good
line and one numerically malformed line parses to nothing, and a file of
a comment, a short line and a good line parses to exactly the good line's
event. -/
theorem c2_parse_abort_witness :
    parse_trace_file
        ["+ 0.25 0 1 tcp 100 --- 1 0.0 1.0 1 1", "+ xx 0 1 tcp 100 --- 1 0.0 1.0 1 2"] = [] ∧
    parse_trace_file ["# comment", "too short", "+ 0.25 0 1 tcp 100 --- 1 0.0 1.0 1 1"] =
      ["# comment", "too short", "+ 0.25 0 1 tcp 100 --- 1 0.0 1.0 1 1"].filterMap evOf :=
  ⟨(c2_parse_abort_behavior _).1 ⟨"+ xx 0 1 tcp 100 --- 1 0.0 1.0 1 2", by decide, by decide⟩,
   (c2_parse_abort_behavior _).2 (by decide)⟩

lemma countType_perm {l1 l2 : List Event} (h : l1.Perm l2) (ty : String) :
    countType l1 ty = countType l2 ty :=
  h.countP_eq _

lemma calculate_packet_loss_perm {l1 l2 : List Event} (h : l1.Perm l2) :
    calculate_packet_loss l1 = calculate_packet_loss l2 := by
  unfold calculate_packet_loss
  rw [packets_sent_eq, packets_dropped_eq, packets_sent_eq, packets_dropped_eq,
    countType_perm h "+", countType_perm h "d"]

lemma analyze_protocol_overhead_perm {l1 l2 : List Event} (h : l1.Perm l2) :
    analyze_protocol_overhead l1 = analyze_protocol_overhead l2 := by
  unfold analyze_protocol_overhead
  rw [overhead_counts l1 (0, 0), overhead_counts l2 (0, 0),
    h.countP_eq (fun e => decide (e.event_type = "+" ∧ e.packet_type = "tcp")),
    show controlCount l1 = controlCount l2 from h.countP_eq _]

lemma nodeCounts_perm {l1 l2 : List Event} (h : l1.Perm l2) (n : Int) :
    nodeCounts l1 n = nodeCounts l2 n := by
  unfold nodeCounts
  rw [h.countP_eq, h.countP_eq, h.countP_eq]

lemma activity_lookup_perm {l1 l2 : List Event} (h : l1.Perm l2) (n : Int) :
    alookup (analyze_node_activity l1) n = alookup (analyze_node_activity l2) n := by
  rw [activity_lookup, activity_lookup, nodeCounts_perm h]

/-- C1 (corrected): over any permutation of the parseable lines of a valid
trace, the engine reports the same packet-loss ratio, the same
protocol-overhead percentage and the same per-node sent/received/dropped
counters.  (The delay-sample set is not preserved in general; see the
counterexample.) -/
theorem c1_shuffle_invariant_aggregates (lines lines' : List String)
    (hperm : lines.Perm lines')
    (hok : ∀ l ∈ lines, parseLine l ≠ LineResult.err) :
    calculate_packet_loss (parse_trace_file lines) =
        calculate_packet_loss (parse_trace_file lines') ∧
    analyze_protocol_overhead (parse_trace_file lines) =
        analyze_protocol_overhead (parse_trace_file lines') ∧
    ∀ n : Int,
      alookup (analyze_node_activity (parse_trace_file lines)) n =
        alookup (analyze_node_activity (parse_trace_file lines')) n := by
  have hok' : ∀ l ∈ lines', parseLine l ≠ LineResult.err :=
    fun l hl => hok l (hperm.mem_iff.mpr hl)
  have h1 : parse_trace_file lines = lines.filterMap evOf := by
    simpa [parse_trace_file] using parseTraceAux_ok lines [] hok
  have h2 : parse_trace_file lines' = lines'.filterMap evOf := by
    simpa [parse_trace_file] using parseTraceAux_ok lines' [] hok'
  have hp : (parse_trace_file lines).Perm (parse_trace_file lines') := by
    rw [h1, h2]
    exact hperm.filterMap evOf
  exact ⟨calculate_packet_loss_perm hp, analyze_protocol_overhead_perm hp,
    fun n => activity_lookup_perm hp n⟩

/-- C1, counterexample to the claim as stated: swapping the two lines of a
valid trace (a source enqueue of packet 7 and its destination receive)
changes the delay-sample set from a singleton to empty, because a receive
processed before its enqueue finds no recorded send time. -/
theorem c1_delay_set_counterexample :
    (["+ 0.0 0 1 tcp 100 --- 1 0.0 1.0 1 7", "r 0.3 0 1 tcp 100 --- 1 0.0 1.0 1 7"].Perm
      ["r 0.3 0 1 tcp 100 --- 1 0.0 1.0 1 7", "+ 0.0 0 1 tcp 100 --- 1 0.0 1.0 1 7"]) ∧
    (calculate_end_to_end_delay (parse_trace_file
      ["+ 0.0 0 1 tcp 100 --- 1 0.0 1.0 1 7",
       "r 0.3 0 1 tcp 100 --- 1 0.0 1.0 1 7"])).length = 1 ∧
    calculate_end_to_end_delay (parse_trace_file
      ["r 0.3 0 1 tcp 100 --- 1 0.0 1.0 1 7",
       "+ 0.0 0 1 tcp 100 --- 1 0.0 1.0 1 7"]) = [] := by
  refine ⟨by decide, by decide, by decide⟩

/-- Witness for the corrected C1 at a concrete two-line trace and its
swap. -/
theorem c1_shuffle_invariant_witness :
    calculate_packet_loss (parse_trace_file
        ["+ 0.0 0 1 tcp 100 --- 1 0.0 1.0 1 7", "r 0.3 0 1 tcp 100 --- 1 0.0 1.0 1 7"]) =
      calculate_packet_loss (parse_trace_file
        ["r 0.3 0 1 tcp 100 --- 1 0.0 1.0 1 7", "+ 0.0 0 1 tcp 100 --- 1 0.0 1.0 1 7"]) :=
  (c1_shuffle_invariant_aggregates _ _ (by decide) (by decide)).1

lemma le_maxTimeFrom (a : Rat) (l : List Event) :
    a ≤ maxTimeFrom a l ∧ ∀ e ∈ l, e.time ≤ maxTimeFrom a l := by
  induction l generalizing a with
  | nil => simp [maxTimeFrom]
  | cons e t ih =>
    have hstep : maxTimeFrom a (e :: t) = maxTimeFrom (max a e.time) t := by
      simp [maxTimeFrom]
    obtain ⟨ih1, ih2⟩ := ih (max a e.time)
    refine ⟨?_, ?_⟩
    · rw [hstep]
      exact le_trans (le_max_left a e.time) ih1
    · intro x hx
      rcases List.mem_cons.mp hx with hh | hh
      · subst hh
        rw [hstep]
        exact le_trans (le_max_right a x.time) ih1
      · rw [hstep]
        exact ih2 x hh

lemma pyTrunc_nonneg {q : Rat} (h : 0 ≤ q) : pyTrunc q = ⌊q⌋ := by
  simp [pyTrunc, h]

lemma bucketIdx_nonneg {w t : Rat} (hw : 0 < w) (ht : 0 ≤ t) : 0 ≤ bucketIdx w t :=
  Int.floor_nonneg.mpr (div_nonneg ht hw.le)

lemma bucketIdx_lt_arangeLen {w t M : Rat} (hw : 0 < w) (ht : 0 ≤ t) (htM : t ≤ M) :
    bucketIdx w t < (arangeLen (M + w) w : Int) := by
  have hM : (0 : Rat) ≤ M := le_trans ht htM
  have hdiv : (M + w) / w = M / w + 1 := by
    field_simp
  have hceil : ⌈(M + w) / w⌉ = ⌈M / w⌉ + 1 := by
    rw [hdiv, Int.ceil_add_one]
  have hpos : 0 ≤ ⌈(M + w) / w⌉ := by
    rw [hceil]
    have : (0 : Int) ≤ ⌈M / w⌉ := Int.ceil_nonneg (div_nonneg hM hw.le)
    omega
  have harr : (arangeLen (M + w) w : Int) = ⌈(M + w) / w⌉ := by
    simp [arangeLen, Int.toNat_of_nonneg hpos]
  rw [harr, hceil]
  have h1 : bucketIdx w t ≤ ⌊M / w⌋ := by
    exact Int.floor_le_floor ((div_le_div_iff_of_pos_right hw).mpr htM)
  have h2 : ⌊M / w⌋ ≤ ⌈M / w⌉ := Int.floor_le_ceil _
  omega

lemma throughputFold_eq (w : Rat) (n : Nat) (l : List Event) (d : List (Rat × Int))
    (hw : 0 < w)
    (hg : ∀ e ∈ l, e.event_type = "r" → 0 ≤ e.time ∧ bucketIdx w e.time < (n : Int)) :
    throughputFold w n l d = some (bucketsOf w l d) := by
  induction l generalizing d with
  | nil => simp [throughputFold, bucketsOf]
  | cons e t ih =>
    have hg' : ∀ x ∈ t, x.event_type = "r" → 0 ≤ x.time ∧ bucketIdx w x.time < (n : Int) :=
      fun x hx => hg x (List.mem_cons_of_mem e hx)
    by_cases hr : e.event_type = "r"
    · obtain ⟨ht0, hlt⟩ := hg e (List.mem_cons_self e t) hr
      have htr : pyTrunc (e.time / w) = bucketIdx w e.time :=
        pyTrunc_nonneg (div_nonneg ht0 hw.le)
      have hidx0 : 0 ≤ bucketIdx w e.time := bucketIdx_nonneg hw ht0
      have hag : arangeGet n w (bucketIdx w e.time) =
          some (((bucketIdx w e.time : Int) : Rat) * w) := by
        simp [arangeGet, hidx0, hlt]
      have h1 : throughputFold w n (e :: t) d =
          throughputFold w n t
            (addTo d (((bucketIdx w e.time : Int) : Rat) * w) e.packet_size) := by
        simp [throughputFold, hr, htr, hag, hlt]
      have h2 : bucketsOf w (e :: t) d =
          bucketsOf w t (addTo d (((bucketIdx w e.time : Int) : Rat) * w) e.packet_size) := by
        simp [bucketsOf, hr]
      rw [h1, h2]
      exact ih _ hg'
    · have h1 : throughputFold w n (e :: t) d = throughputFold w n t d := by
        simp [throughputFold, hr]
      have h2 : bucketsOf w (e :: t) d = bucketsOf w t d := by
        simp [bucketsOf, hr]
      rw [h1, h2]
      exact ih d hg'

lemma alookup_addTo (d : List (Rat × Int)) (k : Rat) (v : Int) (k' : Rat) :
    alookup (addTo d k v) k' =
      if k' = k then some ((alookup d k).getD 0 + v) else alookup d k' := by
  induction d with
  | nil =>
    by_cases h : k' = k
    · subst h; simp [addTo, alookup]
    · simp [addTo, alookup, h, Ne.symm h]
  | cons kv rest ih =>
    obtain ⟨k0, v0⟩ := kv
    by_cases h0 : k0 = k
    · subst h0
      by_cases h' : k' = k0
      · subst h'; simp [addTo, alookup]
      · simp [addTo, alookup, h', Ne.symm h']
    · by_cases h' : k' = k
      · subst h'
        simp [addTo, alookup, h0, Ne.symm h0, ih]
      · by_cases h'' : k0 = k'
        · subst h''; simp [addTo, alookup, h0, h']
        · simp [addTo, alookup, h0, h', h'', ih]

lemma addTo_fst (d : List (Rat × Int)) (k : Rat) (v : Int) :
    (addTo d k v).map Prod.fst =
      if k ∈ d.map Prod.fst then d.map Prod.fst else d.map Prod.fst ++ [k] := by
  induction d with
  | nil => simp [addTo]
  | cons kv rest ih =>
    obtain ⟨k0, v0⟩ := kv
    by_cases h0 : k0 = k
    · subst h0; simp [addTo]
    · simp [addTo, h0, Ne.symm h0, ih]
      by_cases hm : k ∈ rest.map Prod.fst
      · simp [hm]
      · simp [hm, Ne.symm h0]

lemma mem_addTo_fst (d : List (Rat × Int)) (k : Rat) (v : Int) (x : Rat) :
    x ∈ (addTo d k v).map Prod.fst ↔ x = k ∨ x ∈ d.map Prod.fst := by
  rw [addTo_fst]
  by_cases hm : k ∈ d.map Prod.fst
  · simp only [hm, if_true]
    constructor
    · intro h; exact Or.inr h
    · rintro (rfl | h)
      · exact hm
      · exact h
  · simp [hm, List.mem_append, or_comm]

lemma nodup_addTo_fst (d : List (Rat × Int)) (k : Rat) (v : Int)
    (h : (d.map Prod.fst).Nodup) : ((addTo d k v).map Prod.fst).Nodup := by
  rw [addTo_fst]
  by_cases hm : k ∈ d.map Prod.fst
  · simpa [hm] using h
  · simp [hm, List.nodup_append, h]

lemma bucketCount_zero_bytes (l : List Event) (w : Rat) (i : Int)
    (h : bucketCount l w i = 0) : bucketBytes l w i = 0 := by
  unfold bucketCount at h
  unfold bucketBytes
  rw [List.countP_eq_zero] at h
  rw [List.filter_eq_nil_iff.mpr h]
  simp

lemma key_cast_inj {w : Rat} (hw : w ≠ 0) {i j : Int} (h : (i : Rat) * w = (j : Rat) * w) :
    i = j := by
  have h2 : (i : Rat) = (j : Rat) := mul_right_cancel₀ hw h
  exact_mod_cast h2

lemma bucketsOf_lookup (w : Rat) (hw : w ≠ 0) (l : List Event) (d : List (Rat × Int)) (i : Int) :
    alookup (bucketsOf w l d) ((i : Rat) * w) =
      if bucketCount l w i = 0 then alookup d ((i : Rat) * w)
      else some ((alookup d ((i : Rat) * w)).getD 0 + bucketBytes l w i) := by
  induction l generalizing d with
  | nil => simp [bucketsOf, bucketCount]
  | cons e t ih =>
    by_cases hr : e.event_type = "r"
    · have hstep : bucketsOf w (e :: t) d =
          bucketsOf w t (addTo d (((bucketIdx w e.time : Int) : Rat) * w) e.packet_size) := by
        simp [bucketsOf, hr]
      rw [hstep, ih]
      by_cases hb : bucketIdx w e.time = i
      · have hkey : ((i : Rat) * w) = ((bucketIdx w e.time : Int) : Rat) * w := by rw [hb]
        have hcnt : bucketCount (e :: t) w i = bucketCount t w i + 1 := by
          simp [bucketCount, List.countP_cons, hr, hb]
        have hbytes : bucketBytes (e :: t) w i = e.packet_size + bucketBytes t w i := by
          simp [bucketBytes, hr, hb]
        have hlk : alookup (addTo d (((bucketIdx w e.time : Int) : Rat) * w) e.packet_size)
            ((i : Rat) * w) = some ((alookup d ((i : Rat) * w)).getD 0 + e.packet_size) := by
          rw [alookup_addTo, if_pos hkey, hkey]
        by_cases hc : bucketCount t w i = 0
        · rw [if_pos hc, hlk, hcnt]
          have hb0 : bucketBytes t w i = 0 := bucketCount_zero_bytes t w i hc
          simp [hbytes, hb0, hc]
        · rw [if_neg hc, hlk, hcnt]
          simp only [hbytes]
          have : bucketCount t w i + 1 ≠ 0 := by omega
          simp [this]
          ring
      · have hkey : ¬((i : Rat) * w = ((bucketIdx w e.time : Int) : Rat) * w) := by
          intro hh
          exact hb (key_cast_inj hw hh).symm
        have hcnt : bucketCount (e :: t) w i = bucketCount t w i := by
          simp [bucketCount, List.countP_cons, hb]
        have hbytes : bucketBytes (e :: t) w i = bucketBytes t w i := by
          simp [bucketBytes, hb]
        rw [alookup_addTo, if_neg hkey, hcnt, hbytes]
    · have hstep : bucketsOf w (e :: t) d = bucketsOf w t d := by
        simp [bucketsOf, hr]
      have hcnt : bucketCount (e :: t) w i = bucketCount t w i := by
        simp [bucketCount, List.countP_cons, hr]
      have hbytes : bucketBytes (e :: t) w i = bucketBytes t w i := by
        simp [bucketBytes, hr]
      rw [hstep, ih, hcnt, hbytes]

lemma bucketsOf_fst_mem (w : Rat) (l : List Event) (d : List (Rat × Int)) (x : Rat) :
    x ∈ (bucketsOf w l d).map Prod.fst ↔
      (∃ e ∈ l, e.event_type = "r" ∧ x = ((bucketIdx w e.time : Int) : Rat) * w) ∨
        x ∈ d.map Prod.fst := by
  induction l generalizing d with
  | nil => simp [bucketsOf]
  | cons e t ih =>
    by_cases hr : e.event_type = "r"
    · have hstep : bucketsOf w (e :: t) d =
          bucketsOf w t (addTo d (((bucketIdx w e.time : Int) : Rat) * w) e.packet_size) := by
        simp [bucketsOf, hr]
      rw [hstep, ih, mem_addTo_fst]
      constructor
      · rintro (⟨y, hy, hy2, hy3⟩ | hx | hx)
        · exact Or.inl ⟨y, List.mem_cons_of_mem e hy, hy2, hy3⟩
        · exact Or.inl ⟨e, List.mem_cons_self e t, hr, hx⟩
        · exact Or.inr hx
      · rintro (⟨y, hy, hy2, hy3⟩ | hx)
        · rcases List.mem_cons.mp hy with hh | hh
          · subst hh
            exact Or.inr (Or.inl hy3)
          · exact Or.inl ⟨y, hh, hy2, hy3⟩
        · exact Or.inr (Or.inr hx)
    · have hstep : bucketsOf w (e :: t) d = bucketsOf w t d := by
        simp [bucketsOf, hr]
      rw [hstep, ih]
      constructor
      · rintro (⟨y, hy, hy2, hy3⟩ | hx)
        · exact Or.inl ⟨y, List.mem_cons_of_mem e hy, hy2, hy3⟩
        · exact Or.inr hx
      · rintro (⟨y, hy, hy2, hy3⟩ | hx)
        · rcases List.mem_cons.mp hy with hh | hh
          · subst hh
            exact absurd hy2 hr
          · exact Or.inl ⟨y, hh, hy2, hy3⟩
        · exact Or.inr hx

lemma bucketsOf_fst_nodup (w : Rat) (l : List Event) (d : List (Rat × Int))
    (h : (d.map Prod.fst).Nodup) : ((bucketsOf w l d).map Prod.fst).Nodup := by
  induction l generalizing d with
  | nil => simpa [bucketsOf] using h
  | cons e t ih =>
    by_cases hr : e.event_type = "r"
    · have hstep : bucketsOf w (e :: t) d =
          bucketsOf w t (addTo d (((bucketIdx w e.time : Int) : Rat) * w) e.packet_size) := by
        simp [bucketsOf, hr]
      rw [hstep]
      exact ih _ (nodup_addTo_fst _ _ _ h)
    · have hstep : bucketsOf w (e :: t) d = bucketsOf w t d := by
        simp [bucketsOf, hr]
      rw [hstep]
      exact ih d h

lemma bucketIndices_sorted (events : List Event) (w : Rat) :
    (bucketIndices events w).Sorted (· ≤ ·) :=
  List.sorted_insertionSort _ _

lemma bucketIndices_nodup (events : List Event) (w : Rat) :
    (bucketIndices events w).Nodup :=
  ((List.perm_insertionSort _ _).nodup_iff).mpr (List.nodup_dedup _)

lemma mem_bucketIndices (events : List Event) (w : Rat) (i : Int) :
    i ∈ bucketIndices events w ↔
      ∃ e ∈ events, e.event_type = "r" ∧ bucketIdx w e.time = i := by
  unfold bucketIndices
  rw [(List.perm_insertionSort _ _).mem_iff, List.mem_dedup, List.mem_map]
  constructor
  · rintro ⟨e, he, rfl⟩
    rw [List.mem_filter] at he
    exact ⟨e, he.1, by simpa using he.2, rfl⟩
  · rintro ⟨e, he, hr, rfl⟩
    exact ⟨e, List.mem_filter.mpr ⟨he, by simpa using hr⟩, rfl⟩

lemma throughput_eq_spec (events : List Event) (w : Rat)
    (hne : events ≠ []) (hw : 0 < w) (ht : ∀ e ∈ events, 0 ≤ e.time) :
    calculate_throughput events w = some (throughputSpec events w) := by
  obtain ⟨e0, rest, rfl⟩ : ∃ e0 rest, events = e0 :: rest := by
    cases events with
    | nil => exact absurd rfl hne
    | cons a l => exact ⟨a, l, rfl⟩
  have hw0 : w ≠ 0 := hw.ne'
  have hg : ∀ e ∈ e0 :: rest, e.event_type = "r" →
      0 ≤ e.time ∧ bucketIdx w e.time < ((arangeLen (maxTimeFrom e0.time rest + w) w : Nat) : Int) := by
    intro e he _
    have h0 := ht e he
    have hM : e.time ≤ maxTimeFrom e0.time rest := by
      obtain ⟨h1, h2⟩ := le_maxTimeFrom e0.time rest
      rcases List.mem_cons.mp he with hh | hh
      · subst hh
        exact h1
      · exact h2 e hh
    exact ⟨h0, bucketIdx_lt_arangeLen hw h0 hM⟩
  have hfold := throughputFold_eq w (arangeLen (maxTimeFrom e0.time rest + w) w)
    (e0 :: rest) [] hw hg
  have hcalc : calculate_throughput (e0 :: rest) w =
      some (((bucketsOf w (e0 :: rest) []).map (fun p => p.1)).insertionSort (· ≤ ·) |>.map
        (fun t => (t, (((alookup (bucketsOf w (e0 :: rest) []) t).getD 0 : Rat) * 8) / w))) := by
    simp only [calculate_throughput, hw0, if_false, hfold]
  rw [hcalc]
  congr 1
  -- key lists
  have hDnodup : ((bucketsOf w (e0 :: rest) []).map Prod.fst).Nodup :=
    bucketsOf_fst_nodup w (e0 :: rest) [] (by simp)
  have htimes_nodup :
      (((bucketsOf w (e0 :: rest) []).map (fun p => p.1)).insertionSort (· ≤ ·)).Nodup :=
    ((List.perm_insertionSort _ _).nodup_iff).mpr hDnodup
  have htimes_sorted :
      (((bucketsOf w (e0 :: rest) []).map (fun p => p.1)).insertionSort (· ≤ ·)).Sorted (· ≤ ·) :=
    List.sorted_insertionSort _ _
  have hB_sorted : ((bucketIndices (e0 :: rest) w).map (fun i : Int => (i : Rat) * w)).Sorted (· ≤ ·) := by
    refine List.Pairwise.map _ ?_ (bucketIndices_sorted (e0 :: rest) w)
    intro a b hab
    exact mul_le_mul_of_nonneg_right (by exact_mod_cast hab) hw.le
  have hB_nodup : ((bucketIndices (e0 :: rest) w).map (fun i : Int => (i : Rat) * w)).Nodup := by
    refine List.Nodup.map ?_ (bucketIndices_nodup (e0 :: rest) w)
    intro a b hab
    exact key_cast_inj hw0 hab
  have hmem : ∀ x : Rat,
      x ∈ ((bucketsOf w (e0 :: rest) []).map (fun p => p.1)).insertionSort (· ≤ ·) ↔
      x ∈ (bucketIndices (e0 :: rest) w).map (fun i : Int => (i : Rat) * w) := by
    intro x
    rw [(List.perm_insertionSort _ _).mem_iff]
    rw [show ((bucketsOf w (e0 :: rest) []).map fun p => p.1) =
      ((bucketsOf w (e0 :: rest) []).map Prod.fst) from rfl]
    rw [bucketsOf_fst_mem]
    simp only [List.map_nil, List.not_mem_nil, or_false]
    rw [List.mem_map]
    constructor
    · rintro ⟨e, he, hr, rfl⟩
      exact ⟨bucketIdx w e.time, (mem_bucketIndices _ _ _).mpr ⟨e, he, hr, rfl⟩, rfl⟩
    · rintro ⟨i, hi, rfl⟩
      obtain ⟨e, he, hr, hb⟩ := (mem_bucketIndices _ _ _).mp hi
      exact ⟨e, he, hr, by rw [hb]⟩
  have hkeys : ((bucketsOf w (e0 :: rest) []).map (fun p => p.1)).insertionSort (· ≤ ·) =
      (bucketIndices (e0 :: rest) w).map (fun i : Int => (i : Rat) * w) := by
    refine List.eq_of_perm_of_sorted ?_ htimes_sorted hB_sorted
    refine List.perm_of_nodup_nodup_toFinset_eq htimes_nodup hB_nodup ?_
    ext a
    simp only [List.mem_toFinset]
    exact hmem a
  rw [hkeys, List.map_map]
  unfold throughputSpec
  refine List.map_congr_left ?_
  intro i hi
  simp only [Function.comp]
  obtain ⟨e, he, hr, hb⟩ := (mem_bucketIndices _ _ _).mp hi
  have hcnt : bucketCount (e0 :: rest) w i ≠ 0 := by
    have : 0 < bucketCount (e0 :: rest) w i := by
      rw [bucketCount, List.countP_pos_iff]
      exact ⟨e, he, by simp [hr, hb]⟩
    omega
  have hlk := bucketsOf_lookup w hw0 (e0 :: rest) [] i
  rw [if_neg hcnt] at hlk
  rw [hlk]
  simp [alookup]

/-- C4: on a nonempty sequence of events with nonnegative timestamps (the
spec's Event invariant) and a positive bucket width, the throughput series
puts each receive event's packet_size * 8 bits in bucket floor(time /
width), reports each nonempty bucket as (bucket start time, bits / width),
sorted ascending by time, and omits empty buckets. -/
theorem c4_throughput_series (events : List Event) (w : Rat)
    (hne : events ≠ []) (hw : 0 < w) (ht : ∀ e ∈ events, 0 ≤ e.time) :
    calculate_throughput events w = some (throughputSpec events w) :=
  throughput_eq_spec events w hne hw ht

/-- Witness for C4 at the spec's own example: receives of 100 and 200
bytes, both at t = 0.05, with width 0.1, give one bucket at t = 0 with
rate (800 + 1600) / 0.1 = 24000 bits per second. -/
theorem c4_throughput_witness :
    calculate_throughput
        [mkEv "r" (1/20) 0 1 "tcp" 100 1, mkEv "r" (1/20) 0 1 "tcp" 200 2] (1/10) =
      some [(0, 24000)] := by
  have ht : ∀ e ∈ [mkEv "r" (1/20) 0 1 "tcp" 100 1, mkEv "r" (1/20) 0 1 "tcp" 200 2],
      (0 : Rat) ≤ e.time := by
    intro e he
    rcases List.mem_cons.mp he with rfl | he2
    · norm_num [mkEv]
    · rcases List.mem_cons.mp he2 with rfl | h3
      · norm_num [mkEv]
      · simp at h3
  rw [c4_throughput_series _ _ (by simp) (by norm_num) ht]
  have hb : bucketIdx (1/10) (1/20) = 0 := by
    unfold bucketIdx
    norm_num
  simp only [throughputSpec, bucketIndices, bucketBytes, mkEv]
  norm_num [hb, List.insertionSort, List.orderedInsert, List.dedup_cons_of_mem,
    List.dedup_cons_of_not_mem]

/-- C9: the throughput computation crashes on the empty event sequence
(the unconditional max over all event times), so a caller with zero parsed
events must not invoke it; on any nonempty input meeting the Event time
invariant with positive width it succeeds. -/
theorem c9_throughput_needs_nonempty :
    (∀ w : Rat, calculate_throughput [] w = none) ∧
    (∀ (events : List Event) (w : Rat), events ≠ [] → 0 < w →
      (∀ e ∈ events, 0 ≤ e.time) → (calculate_throughput events w).isSome) := by
  constructor
  · intro w
    rfl
  · intro events w hne hw ht
    rw [throughput_eq_spec events w hne hw ht]
    rfl

/-- Witness for C9: the empty sequence yields the crash marker, a
one-receive sequence succeeds. -/
theorem c9_throughput_witness :
    calculate_throughput [] 1 = none ∧
    (calculate_throughput [mkEv "r" 0 0 1 "tcp" 100 1] 1).isSome :=
  ⟨c9_throughput_needs_nonempty.1 1,
   c9_throughput_needs_nonempty.2 [mkEv "r" 0 0 1 "tcp" 100 1] 1 (by simp) (by norm_num)
     (by
       intro e he
       rcases List.mem_cons.mp he with rfl | h3
       · norm_num [mkEv]
       · simp at h3)⟩
